import Mathlib

set_option autoImplicit false

/-!
Shallow embedding of the feed-reconciliation engine of the scrape-tpl
repository (src/index.ts, class TPLScraper) and proofs of the frozen claims
about it.

Modelling conventions:
* JavaScript arrays of strings (the xml2js shape, e.g. item.title : string[])
  become List String; the JS access pattern arr?.[0] becomes List.head?.
* JS string truthiness (undefined or "" is falsy) is modelled explicitly where
  the source relies on it (the !title || !link skip check, and the
  startTimes[index] || startTimes[0] fallback).
* new Date(s) parsing is abstracted as a parameter parse : String -> Option Int
  returning the epoch-millisecond value (none models an Invalid Date, which
  the source detects via isNaN(parsedDate.getTime())).
* The PostgreSQL table rss_items becomes List DBRow; each SQL statement of
  upsertRSSItems becomes a List DBRow -> List DBRow operation, and the
  BEGIN/COMMIT/ROLLBACK transaction becomes runTx, which applies the
  operations to a pending copy of the committed state and discards the
  pending copy on an injected failure.
* NOW() is a parameter now : Nat; the prune cutoff NOW() - INTERVAL n days is
  a parameter cutoff : Nat.
* The HTTP fetch plus xml2js parse of one page is abstracted as a parameter
  fetchPage : Nat -> FetchResult (indexed by the page offset), with one
  constructor per outcome the source distinguishes.
-/

/-- One vendor attribute of the record block: attr.$.name and attr._ in the
xml2js shape consumed by getEventDates (src/index.ts lines 598-606). -/
structure AttrEntry where
  name : String
  value : String
deriving DecidableEq, Repr

/-- The record block of one RSS item; attrs models the optional-chained
access record.attributes?.[0]?.attr (none when any link of the chain is
missing, src/index.ts line 589). -/
structure RecordData where
  attrs : Option (List AttrEntry)
deriving DecidableEq, Repr

/-- An RSS item as parsed by xml2js (interface RSSItem, src/index.ts
lines 12-18): every field is a string array, record holds the vendor
metadata blocks. -/
structure RSSItem where
  title : List String
  link : List String
  description : List String
  contentEncoded : List String
  record : List RecordData
deriving DecidableEq, Repr

/-- One extracted event occurrence: the parsed start date-time (the
getTime() value of the Date built at src/index.ts line 622) plus the
optional end-time string attached as a property on the Date object
(line 627). -/
structure EventDate where
  time : Int
  endTime : Option String
deriving DecidableEq, Repr

/-- The p_event_date attribute values, in attribute order
(src/index.ts lines 598-600). -/
def bucketDates (l : List AttrEntry) : List String :=
  (l.filter (fun a => a.name == "p_event_date")).map (fun a => a.value)

/-- The p_event_time attribute values, in attribute order
(src/index.ts lines 601-602). -/
def bucketStart (l : List AttrEntry) : List String :=
  (l.filter (fun a => a.name == "p_event_time")).map (fun a => a.value)

/-- The p_event_endtime attribute values, in attribute order
(src/index.ts lines 603-604). -/
def bucketEnd (l : List AttrEntry) : List String :=
  (l.filter (fun a => a.name == "p_event_endtime")).map (fun a => a.value)

/-- The JS expression l[i] || l[0]: the element at i unless it is absent or
the empty string (both falsy), in which case the first element (itself ""
when absent) is used (src/index.ts lines 618 and 626). -/
def jsIndexOrFirst (l : List String) (i : Nat) : String :=
  match l.get? i with
  | some s => if s == "" then l.headD "" else s
  | none => l.headD ""

/-- Build the occurrence for the date string at index idx: combine with a
start time when any start time exists (line 617-619), parse (line 622,
abstracted), and attach an end time when any end time exists (lines 625-627).
none models the isNaN skip of an unparseable combined string. -/
def buildOccurrence (parse : String → Option Int) (startTimes endTimes : List String)
    (idx : Nat) (dateStr : String) : Option EventDate :=
  let fullStr :=
    if startTimes.length > 0 then dateStr ++ "T" ++ jsIndexOrFirst startTimes idx ++ ":00"
    else dateStr
  match parse fullStr with
  | none => none
  | some t =>
    some { time := t
           endTime := if endTimes.length > 0 then some (jsIndexOrFirst endTimes idx) else none }

/-- Insert an occurrence into a list sorted ascending by time. -/
def insertOcc (x : EventDate) : List EventDate → List EventDate
  | [] => [x]
  | y :: ys => if x.time ≤ y.time then x :: y :: ys else y :: insertOcc x ys

/-- dates.sort((a, b) => a.getTime() - b.getTime()) at src/index.ts line 637:
sort ascending by the parsed start time. -/
def sortOccs : List EventDate → List EventDate
  | [] => []
  | x :: xs => insertOcc x (sortOccs xs)

/-- The indexed forEach of src/index.ts lines 612-634: walk the date strings
with their indices, keeping the occurrences that parse. -/
def rawOccurrencesAux (parse : String → Option Int) (startTimes endTimes : List String) :
    Nat → List String → List EventDate
  | _, [] => []
  | idx, d :: ds =>
    match buildOccurrence parse startTimes endTimes idx d with
    | none => rawOccurrencesAux parse startTimes endTimes (idx + 1) ds
    | some occ => occ :: rawOccurrencesAux parse startTimes endTimes (idx + 1) ds

/-- The occurrences surviving the per-index parse, in attribute order
(the forEach at src/index.ts lines 612-634). -/
def rawOccurrences (parse : String → Option Int) (attrList : List AttrEntry) : List EventDate :=
  rawOccurrencesAux parse (bucketStart attrList) (bucketEnd attrList) 0 (bucketDates attrList)

/-- getEventDates (src/index.ts lines 586-642): bucket the attributes of the
first record block, build one candidate occurrence per p_event_date value,
drop the ones whose combined string does not parse, and sort ascending by
start time. Missing record block or attribute chain yields the empty list. -/
def getEventDates (parse : String → Option Int) (item : RSSItem) : List EventDate :=
  match item.record.head? with
  | none => []
  | some record0 =>
    match record0.attrs with
    | none => []
    | some attrList => sortOccs (rawOccurrences parse attrList)

/-! ### Sortedness of the occurrence sort -/

theorem mem_insertOcc {a x : EventDate} {l : List EventDate}
    (h : a ∈ insertOcc x l) : a = x ∨ a ∈ l := by
  induction l with
  | nil => simpa [insertOcc] using h
  | cons y ys ih =>
    rw [insertOcc] at h
    by_cases hxy : x.time ≤ y.time
    · rw [if_pos hxy] at h
      simpa using h
    · rw [if_neg hxy] at h
      rcases List.mem_cons.mp h with rfl | h'
      · exact Or.inr (List.mem_cons_self _ _)
      · rcases ih h' with rfl | h''
        · exact Or.inl rfl
        · exact Or.inr (List.mem_cons_of_mem _ h'')

theorem pairwise_insertOcc (x : EventDate) (l : List EventDate)
    (h : l.Pairwise (fun a b => a.time ≤ b.time)) :
    (insertOcc x l).Pairwise (fun a b => a.time ≤ b.time) := by
  induction l with
  | nil => simp [insertOcc]
  | cons y ys ih =>
    rw [List.pairwise_cons] at h
    by_cases hxy : x.time ≤ y.time
    · rw [insertOcc, if_pos hxy]
      refine List.pairwise_cons.mpr ⟨?_, List.pairwise_cons.mpr h⟩
      intro a ha
      rcases List.mem_cons.mp ha with rfl | ha
      · exact hxy
      · exact le_trans hxy (h.1 a ha)
    · rw [insertOcc, if_neg hxy]
      refine List.pairwise_cons.mpr ⟨?_, ih h.2⟩
      intro a ha
      rcases mem_insertOcc ha with rfl | ha'
      · exact le_of_not_le hxy
      · exact h.1 a ha'

theorem pairwise_sortOccs (l : List EventDate) :
    (sortOccs l).Pairwise (fun a b => a.time ≤ b.time) := by
  induction l with
  | nil => simp [sortOccs]
  | cons x xs ih => exact pairwise_insertOcc x (sortOccs xs) ih

/-! ### The persisted table and the reconciler (upsertRSSItems) -/

/-- One row of the rss_items table (schema at src/index.ts lines 168-185,
interface DBRSSItem lines 51-63). The serial id is omitted: no query of the
reconciler reads or filters on it. recordData stores the record block
verbatim (the source stores JSON.stringify of it; the stringification is
injective on the modelled data and never read back by the reconciler). -/
structure DBRow where
  title : String
  link : String
  description : Option String
  contentEncoded : Option String
  recordData : Option RecordData
  eventDates : List EventDate
  feedName : String
  firstSeen : Nat
  lastSeen : Nat
  isActive : Bool
  createdAt : Nat
  updatedAt : Nat
deriving DecidableEq, Repr

/-- The data the per-item loop extracts from an item it does not skip
(src/index.ts lines 366-374). -/
structure ProcessedItem where
  title : String
  link : String
  description : Option String
  contentEncoded : Option String
  recordData : Option RecordData
  eventDates : List EventDate
deriving DecidableEq, Repr

/-- The per-item extraction and skip check of the upsert loop (src/index.ts
lines 366-380): title and link are item.title?.[0] and item.link?.[0], and
the item is skipped (none) when either is undefined or the empty string
(JS falsiness of !title || !link). -/
def processItem (parse : String → Option Int) (item : RSSItem) : Option ProcessedItem :=
  match item.title.head?, item.link.head? with
  | some t, some l =>
    if t == "" || l == "" then none
    else
      some { title := t
             link := l
             description := item.description.head?
             contentEncoded := item.contentEncoded.head?
             recordData := item.record.head?
             eventDates := getEventDates parse item }
  | _, _ => none

/-- The items the loop actually processes, in feed order. -/
def processedItems (parse : String → Option Int) (items : List RSSItem) : List ProcessedItem :=
  items.filterMap (processItem parse)

/-- The titles of the processed items, in feed order (with duplicates when
the feed repeats a title, exactly as newItemTitles can repeat). -/
def processedTitles (parse : String → Option Int) (items : List RSSItem) : List String :=
  (processedItems parse items).map (fun p => p.title)

/-- JS Set.add: append when not yet present (insertion order preserved). -/
def insertUnique (l : List String) (x : String) : List String :=
  if x ∈ l then l else l ++ [x]

/-- The list of distinct elements of l in first-occurrence order: the
iteration order of a JS Set built from l. -/
def dedupList (l : List String) : List String :=
  l.foldl insertUnique []

/-- The baseline read at src/index.ts lines 355-359: the distinct titles of
rows with is_active = TRUE and feed_name = feedName (a JS Set of the query
result). -/
def activeTitlesDedup (db : List DBRow) (feed : String) : List String :=
  dedupList ((db.filter (fun r => r.isActive && r.feedName == feed)).map (fun r => r.title))

/-- newItemTitles (src/index.ts lines 384-387): one entry per processed item
whose title is not in the baseline set. -/
def newTitles (parse : String → Option Int) (db : List DBRow) (items : List RSSItem)
    (feed : String) : List String :=
  ((processedItems parse items).filter
    (fun p => !(activeTitlesDedup db feed).contains p.title)).map (fun p => p.title)

/-- removedItemTitles (src/index.ts lines 407-416): the baseline titles (Set
iteration order) absent from the processed-title set. -/
def removedTitles (parse : String → Option Int) (db : List DBRow) (items : List RSSItem)
    (feed : String) : List String :=
  (activeTitlesDedup db feed).filter (fun t => !(processedTitles parse items).contains t)

/-- The row predicate title = $1 AND feed_name = $2 shared by the ON
CONFLICT target and the deactivation UPDATE. -/
def keyMatch (t fd : String) (r : DBRow) : Bool :=
  r.title == t && r.feedName == fd

/-- The DO UPDATE SET assignment list of src/index.ts lines 394-402: update
the payload columns, refresh last_seen and updated_at, force is_active =
TRUE; title, feed_name, first_seen and created_at are untouched. -/
def updateRow (now : Nat) (p : ProcessedItem) (r : DBRow) : DBRow :=
  { r with link := p.link
           description := p.description
           contentEncoded := p.contentEncoded
           recordData := p.recordData
           eventDates := p.eventDates
           lastSeen := now
           isActive := true
           updatedAt := now }

/-- The VALUES row of the INSERT at src/index.ts lines 391-392: first_seen,
last_seen, created_at and updated_at take their NOW() defaults, is_active is
TRUE. -/
def insertRow (now : Nat) (feed : String) (p : ProcessedItem) : DBRow :=
  { title := p.title
    link := p.link
    description := p.description
    contentEncoded := p.contentEncoded
    recordData := p.recordData
    eventDates := p.eventDates
    feedName := feed
    firstSeen := now
    lastSeen := now
    isActive := true
    createdAt := now
    updatedAt := now }

/-- The INSERT ... ON CONFLICT (title, feed_name) DO UPDATE of src/index.ts
lines 390-403: when a row with the key exists, update it; otherwise insert a
fresh row. The table's unique constraint keeps at most one matching row; the
update maps over all matches, which coincides on constraint-respecting
states. -/
def upsertOp (now : Nat) (feed : String) (p : ProcessedItem) (db : List DBRow) : List DBRow :=
  if db.any (keyMatch p.title feed) then
    db.map (fun r => if keyMatch p.title feed r then updateRow now p r else r)
  else
    db ++ [insertRow now feed p]

/-- The UPDATE rss_items SET is_active = FALSE ... WHERE title = $1 AND
feed_name = $2 of src/index.ts lines 411-414. -/
def deactivateOp (now : Nat) (feed : String) (title : String) (db : List DBRow) : List DBRow :=
  db.map (fun r =>
    if keyMatch title feed r then { r with isActive := false, updatedAt := now } else r)

/-- The write statements of one reconciliation transaction, in execution
order: one upsert per processed item (feed order), then one deactivation per
removed baseline title (baseline order). -/
def reconcileOps (parse : String → Option Int) (now : Nat) (db : List DBRow)
    (items : List RSSItem) (feed : String) : List (List DBRow → List DBRow) :=
  (processedItems parse items).map (fun p => upsertOp now feed p)
    ++ (removedTitles parse db items feed).map (fun t => deactivateOp now feed t)

/-- Apply a statement list to a database state in order. -/
def applyOps (db : List DBRow) (ops : List (List DBRow → List DBRow)) : List DBRow :=
  ops.foldl (fun d op => op d) db

/-- The BEGIN/COMMIT/ROLLBACK discipline of src/index.ts lines 352-423:
committed is the durable state, pending the in-transaction state. Each
statement acts on pending; failAt injects a database error before the k-th
remaining statement (failAt = some ops.length models a failing COMMIT).
On failure the catch issues ROLLBACK and rethrows: the committed state is
returned unchanged and the Bool success flag is false, which the
orchestrator's per-feed catch consumes. -/
def runTx (committed : List DBRow) : List DBRow → List (List DBRow → List DBRow) →
    Option Nat → List DBRow × Bool
  | pending, [], none => (pending, true)
  | pending, [], some k => if k == 0 then (committed, false) else (pending, true)
  | _, _ :: _, some 0 => (committed, false)
  | pending, op :: rest, some (k + 1) => runTx committed (op pending) rest (some k)
  | pending, op :: rest, none => runTx committed (op pending) rest none

/-- The result of upsertRSSItems (src/index.ts line 420). -/
structure ReconcileResult where
  db : List DBRow
  newItems : List String
  removedItems : List String
deriving DecidableEq, Repr

/-- upsertRSSItems (src/index.ts lines 349-427) on the success path: read
the baseline, upsert every processed item, deactivate the vanished baseline
titles, commit, and report the new and removed title lists. -/
def upsertRSSItems (parse : String → Option Int) (now : Nat) (db : List DBRow)
    (items : List RSSItem) (feed : String) : ReconcileResult :=
  { db := applyOps db (reconcileOps parse now db items feed)
    newItems := newTitles parse db items feed
    removedItems := removedTitles parse db items feed }

/-- pruneOldData (src/index.ts lines 429-448): DELETE FROM rss_items WHERE
is_active = FALSE AND last_seen < cutoff, where cutoff stands for
NOW() - INTERVAL prune_days days. -/
def pruneOldData (cutoff : Nat) (db : List DBRow) : List DBRow :=
  db.filter (fun r => !(!r.isActive && decide (r.lastSeen < cutoff)))

/-! ### The paginator (fetchAllRSSItems) -/

/-- The outcome of fetching and parsing one page, as distinguished by
fetchAllRSSItems (src/index.ts lines 287-307): an exception from the fetch or
the parse, an empty response body, a parse result without the
rss.channel[0].item list, or the item list of the page. -/
inductive FetchResult
  | throwErr
  | emptyContent
  | noStructure
  | items (l : List RSSItem)
deriving DecidableEq, Repr

/-- The pagination loop of fetchAllRSSItems (src/index.ts lines 282-325),
accumulating items and counting fetch calls. An exception (throwErr) lands in
the catch at lines 330-334, which returns the accumulated items. A page is
taken and the loop continues only when it has at least pageSize = 10 items
and the next offset does not exceed the safety ceiling of 1000. The fuel
argument only bounds the recursion: the ceiling check admits at most 101
iterations, so the fuel of 102 supplied by fetchAllRSSItems is never
exhausted. -/
def fetchLoop (fetchPage : Nat → FetchResult) :
    Nat → Nat → List RSSItem → Nat → List RSSItem × Nat
  | 0, _, acc, calls => (acc, calls)
  | fuel + 1, offset, acc, calls =>
    match fetchPage offset with
    | .throwErr => (acc, calls + 1)
    | .emptyContent => (acc, calls + 1)
    | .noStructure => (acc, calls + 1)
    | .items l =>
      if l.length == 0 then (acc, calls + 1)
      else if l.length < 10 then (acc ++ l, calls + 1)
      else if offset + 10 > 1000 then (acc ++ l, calls + 1)
      else fetchLoop fetchPage fuel (offset + 10) (acc ++ l) (calls + 1)

/-- fetchAllRSSItems (src/index.ts lines 276-335): paginate from offset 0,
returning the accumulated items and the number of fetch calls made. -/
def fetchAllRSSItems (fetchPage : Nat → FetchResult) : List RSSItem × Nat :=
  fetchLoop fetchPage 102 0 [] 0

/-! ### The run orchestrator -/

/-- A configured feed (interface FeedConfig, src/index.ts lines 34-38). -/
structure FeedConfig where
  name : String
  url : String
  enabled : Bool
deriving DecidableEq, Repr

/-- An item tagged with its feed name for display (interface
RSSItemWithFeed, src/index.ts lines 20-22). -/
structure TaggedItem where
  item : RSSItem
  feedName : String
deriving DecidableEq, Repr

/-- The payload handed to the notifier for a non-error run: formatContent's
three inputs (src/index.ts lines 489, 984 and 988). -/
structure EmailMsg where
  items : List TaggedItem
  newEvents : List String
  removedEvents : List String
deriving DecidableEq, Repr

/-- Whether formatContent (src/index.ts lines 497-535, 564) frames the body
with a change summary: its changeSummary list is non-empty exactly when the
new-event set or the removed-event set is non-empty. -/
def hasChangeSummary (e : EmailMsg) : Bool :=
  !e.newEvents.isEmpty || !e.removedEvents.isEmpty

/-- The orchestrator's accumulator across the feed loop (src/index.ts
lines 942-944): the database, the two cross-feed title Sets in insertion
order, and the tagged current items. -/
structure RunState where
  db : List DBRow
  allNew : List String
  allRemoved : List String
  allCurrent : List TaggedItem
deriving DecidableEq, Repr

/-- The body of the per-feed loop (src/index.ts lines 946-976): paginate;
when at least one item came back, run the reconciliation transaction
(dbFail injects a per-feed database failure, consumed by the catch at
lines 972-975, which leaves the accumulators untouched and continues); on
success fold the new and removed titles into the cross-feed Sets and append
the tagged items. A feed with zero fetched items is only logged. -/
def processFeed (parse : String → Option Int) (now : Nat)
    (fetcher : String → Nat → FetchResult) (dbFail : String → Option Nat)
    (st : RunState) (feed : FeedConfig) : RunState :=
  if ((fetchAllRSSItems (fetcher feed.url)).1).length > 0 then
    if (runTx st.db st.db
        (reconcileOps parse now st.db (fetchAllRSSItems (fetcher feed.url)).1 feed.name)
        (dbFail feed.name)).2 then
      { db := (runTx st.db st.db
          (reconcileOps parse now st.db (fetchAllRSSItems (fetcher feed.url)).1 feed.name)
          (dbFail feed.name)).1
        allNew := (newTitles parse st.db (fetchAllRSSItems (fetcher feed.url)).1
          feed.name).foldl insertUnique st.allNew
        allRemoved := (removedTitles parse st.db (fetchAllRSSItems (fetcher feed.url)).1
          feed.name).foldl insertUnique st.allRemoved
        allCurrent := st.allCurrent
          ++ ((fetchAllRSSItems (fetcher feed.url)).1).map (fun i => ⟨i, feed.name⟩) }
    else
      { st with db := (runTx st.db st.db
          (reconcileOps parse now st.db (fetchAllRSSItems (fetcher feed.url)).1 feed.name)
          (dbFail feed.name)).1 }
  else st

/-- The state after the prune and the feed loop of run (src/index.ts
lines 937-976): prune, then fold the per-feed body over the enabled feeds
starting with empty accumulators. -/
def runState (parse : String → Option Int) (now : Nat) (cutoff : Nat) (db : List DBRow)
    (feeds : List FeedConfig) (fetcher : String → Nat → FetchResult)
    (dbFail : String → Option Nat) : RunState :=
  (feeds.filter (fun f => f.enabled)).foldl (processFeed parse now fetcher dbFail)
    ⟨pruneOldData cutoff db, [], [], []⟩

/-- The notification decision of run (src/index.ts lines 978-992).
getCurrentItemsFromDB (lines 337-347) reads the active rows of every feed;
only its length feeds the first-run test at line 980. Exactly one email is
sent: with the accumulated new/removed sets when either is non-empty, else
with empty sets when the first-run count test holds, else none. -/
def runEmails (st : RunState) : List EmailMsg :=
  if !st.allNew.isEmpty || !st.allRemoved.isEmpty then
    [⟨st.allCurrent, st.allNew, st.allRemoved⟩]
  else if (st.db.filter (fun r => r.isActive)).length == st.allCurrent.length
      && st.allNew.length == st.allCurrent.length then
    [⟨st.allCurrent, [], []⟩]
  else []

/-- run (src/index.ts lines 937-992), from the prune onwards: the final
state and the notifications sent. The initializeDatabase and clear-db
branches (lines 920-935) and the run-level error email (lines 993-1029) are
outside the claims and not modelled. -/
def run (parse : String → Option Int) (now : Nat) (cutoff : Nat) (db : List DBRow)
    (feeds : List FeedConfig) (fetcher : String → Nat → FetchResult)
    (dbFail : String → Option Nat) : RunState × List EmailMsg :=
  (runState parse now cutoff db feeds fetcher dbFail,
    runEmails (runState parse now cutoff db feeds fetcher dbFail))

/-! ### Helper predicates and lemmas about the reconciler -/

/-- Some row of db belongs to feed fd, is active, and has title t. -/
def ActiveIn (db : List DBRow) (fd : String) (t : String) : Prop :=
  ∃ r ∈ db, r.feedName = fd ∧ r.isActive = true ∧ r.title = t

/-- Some row of db belongs to feed fd and has title t. -/
def PresentIn (db : List DBRow) (fd : String) (t : String) : Prop :=
  ∃ r ∈ db, r.feedName = fd ∧ r.title = t

/-- The identity-and-creation data of a row: the columns the second of two
identical reconciliations must not change. -/
def keyFS (r : DBRow) : String × String × Nat :=
  (r.title, r.feedName, r.firstSeen)

theorem mem_insertUnique {x y : String} {l : List String} :
    x ∈ insertUnique l y ↔ x = y ∨ x ∈ l := by
  unfold insertUnique
  by_cases h : y ∈ l
  · rw [if_pos h]
    constructor
    · exact Or.inr
    · rintro (rfl | hx)
      · exact h
      · exact hx
  · rw [if_neg h]
    simp [or_comm]

theorem mem_foldl_insertUnique (l : List String) :
    ∀ acc x, x ∈ l.foldl insertUnique acc ↔ x ∈ acc ∨ x ∈ l := by
  induction l with
  | nil => simp
  | cons y ys ih =>
    intro acc x
    rw [List.foldl_cons, ih]
    rw [mem_insertUnique]
    simp [or_comm, or_assoc, or_left_comm]

theorem mem_dedupList {x : String} {l : List String} : x ∈ dedupList l ↔ x ∈ l := by
  unfold dedupList
  rw [mem_foldl_insertUnique]
  simp

theorem mem_activeTitlesDedup {db : List DBRow} {feed t : String} :
    t ∈ activeTitlesDedup db feed ↔ ActiveIn db feed t := by
  unfold activeTitlesDedup ActiveIn
  rw [mem_dedupList]
  constructor
  · intro h
    rcases List.mem_map.mp h with ⟨r, hr, rfl⟩
    rcases List.mem_filter.mp hr with ⟨hrdb, hcond⟩
    rw [Bool.and_eq_true, beq_iff_eq] at hcond
    exact ⟨r, hrdb, hcond.2, hcond.1, rfl⟩
  · rintro ⟨r, hrdb, hfeed, hact, rfl⟩
    refine List.mem_map.mpr ⟨r, List.mem_filter.mpr ⟨hrdb, ?_⟩, rfl⟩
    rw [Bool.and_eq_true, beq_iff_eq]
    exact ⟨hact, hfeed⟩

theorem any_key_iff {db : List DBRow} {fd t : String} :
    (db.any (fun r => r.title == t && r.feedName == fd)) = true ↔ PresentIn db fd t := by
  rw [List.any_eq_true]
  unfold PresentIn
  constructor
  · rintro ⟨r, hr, hcond⟩
    rw [Bool.and_eq_true, beq_iff_eq, beq_iff_eq] at hcond
    exact ⟨r, hr, hcond.2, hcond.1⟩
  · rintro ⟨r, hr, hfeed, htitle⟩
    refine ⟨r, hr, ?_⟩
    rw [Bool.and_eq_true, beq_iff_eq, beq_iff_eq]
    exact ⟨htitle, hfeed⟩

theorem contains_iff_mem {l : List String} {x : String} : l.contains x = true ↔ x ∈ l := by
  simp [List.contains]

theorem keyMatch_iff {t fd : String} {r : DBRow} :
    keyMatch t fd r = true ↔ r.title = t ∧ r.feedName = fd := by
  unfold keyMatch
  rw [Bool.and_eq_true, beq_iff_eq, beq_iff_eq]

theorem keyMatch_eq_false {t fd : String} {r : DBRow}
    (h : ¬(r.title = t ∧ r.feedName = fd)) : keyMatch t fd r = false := by
  rw [← Bool.not_eq_true, keyMatch_iff]
  exact h

theorem updateRow_title (now : Nat) (p : ProcessedItem) (r : DBRow) :
    (updateRow now p r).title = r.title := rfl

theorem updateRow_feedName (now : Nat) (p : ProcessedItem) (r : DBRow) :
    (updateRow now p r).feedName = r.feedName := rfl

theorem updateRow_isActive (now : Nat) (p : ProcessedItem) (r : DBRow) :
    (updateRow now p r).isActive = true := rfl

theorem updateRow_firstSeen (now : Nat) (p : ProcessedItem) (r : DBRow) :
    (updateRow now p r).firstSeen = r.firstSeen := rfl

theorem insertRow_title (now : Nat) (feed : String) (p : ProcessedItem) :
    (insertRow now feed p).title = p.title := rfl

theorem insertRow_feedName (now : Nat) (feed : String) (p : ProcessedItem) :
    (insertRow now feed p).feedName = feed := rfl

theorem insertRow_isActive (now : Nat) (feed : String) (p : ProcessedItem) :
    (insertRow now feed p).isActive = true := rfl

theorem activeIn_upsertOp {now : Nat} {feed : String} {p : ProcessedItem} {db : List DBRow}
    {fd t : String} :
    ActiveIn (upsertOp now feed p db) fd t ↔ ((fd = feed ∧ t = p.title) ∨ ActiveIn db fd t) := by
  unfold upsertOp
  by_cases hany : (db.any (keyMatch p.title feed)) = true
  · rw [if_pos hany]
    constructor
    · rintro ⟨r', hr', hfd, hact, ht⟩
      rcases List.mem_map.mp hr' with ⟨r, hr, rfl⟩
      by_cases hc : keyMatch p.title feed r = true
      · rw [if_pos hc, updateRow_feedName] at hfd
        rw [if_pos hc, updateRow_title] at ht
        rcases keyMatch_iff.mp hc with ⟨htitle, hfeed⟩
        exact Or.inl ⟨hfd.symm.trans hfeed, ht.symm.trans htitle⟩
      · rw [if_neg hc] at hfd hact ht
        exact Or.inr ⟨r, hr, hfd, hact, ht⟩
    · rintro (⟨hfd, ht⟩ | ⟨r, hr, hfd, hact, ht⟩)
      · rcases List.any_eq_true.mp hany with ⟨r, hr, hc⟩
        refine ⟨_, List.mem_map.mpr ⟨r, hr, rfl⟩, ?_⟩
        rw [if_pos hc, updateRow_feedName, updateRow_title, updateRow_isActive]
        rcases keyMatch_iff.mp hc with ⟨htitle, hfeed⟩
        exact ⟨hfeed.trans hfd.symm, rfl, htitle.trans ht.symm⟩
      · refine ⟨_, List.mem_map.mpr ⟨r, hr, rfl⟩, ?_⟩
        by_cases hc : keyMatch p.title feed r = true
        · rw [if_pos hc, updateRow_feedName, updateRow_title, updateRow_isActive]
          exact ⟨hfd, rfl, ht⟩
        · rw [if_neg hc]
          exact ⟨hfd, hact, ht⟩
  · rw [if_neg hany]
    constructor
    · rintro ⟨r', hr', hfd, hact, ht⟩
      rcases List.mem_append.mp hr' with h | h
      · exact Or.inr ⟨r', h, hfd, hact, ht⟩
      · rcases List.mem_singleton.mp h with rfl
        rw [insertRow_feedName] at hfd
        rw [insertRow_title] at ht
        exact Or.inl ⟨hfd.symm, ht.symm⟩
    · rintro (⟨hfd, ht⟩ | ⟨r, hr, hfd, hact, ht⟩)
      · refine ⟨insertRow now feed p, List.mem_append.mpr (Or.inr (List.mem_singleton.mpr rfl)), ?_⟩
        rw [insertRow_feedName, insertRow_title, insertRow_isActive]
        exact ⟨hfd.symm, rfl, ht.symm⟩
      · exact ⟨r, List.mem_append.mpr (Or.inl hr), hfd, hact, ht⟩

theorem presentIn_upsertOp {now : Nat} {feed : String} {p : ProcessedItem} {db : List DBRow}
    {fd t : String} :
    PresentIn (upsertOp now feed p db) fd t ↔ ((fd = feed ∧ t = p.title) ∨ PresentIn db fd t) := by
  unfold upsertOp
  by_cases hany : (db.any (keyMatch p.title feed)) = true
  · rw [if_pos hany]
    constructor
    · rintro ⟨r', hr', hfd, ht⟩
      rcases List.mem_map.mp hr' with ⟨r, hr, rfl⟩
      by_cases hc : keyMatch p.title feed r = true
      · rw [if_pos hc, updateRow_feedName] at hfd
        rw [if_pos hc, updateRow_title] at ht
        rcases keyMatch_iff.mp hc with ⟨htitle, hfeed⟩
        exact Or.inl ⟨hfd.symm.trans hfeed, ht.symm.trans htitle⟩
      · rw [if_neg hc] at hfd ht
        exact Or.inr ⟨r, hr, hfd, ht⟩
    · rintro (⟨hfd, ht⟩ | ⟨r, hr, hfd, ht⟩)
      · rcases List.any_eq_true.mp hany with ⟨r, hr, hc⟩
        refine ⟨_, List.mem_map.mpr ⟨r, hr, rfl⟩, ?_⟩
        rw [if_pos hc, updateRow_feedName, updateRow_title]
        rcases keyMatch_iff.mp hc with ⟨htitle, hfeed⟩
        exact ⟨hfeed.trans hfd.symm, htitle.trans ht.symm⟩
      · refine ⟨_, List.mem_map.mpr ⟨r, hr, rfl⟩, ?_⟩
        by_cases hc : keyMatch p.title feed r = true
        · rw [if_pos hc, updateRow_feedName, updateRow_title]
          exact ⟨hfd, ht⟩
        · rw [if_neg hc]
          exact ⟨hfd, ht⟩
  · rw [if_neg hany]
    constructor
    · rintro ⟨r', hr', hfd, ht⟩
      rcases List.mem_append.mp hr' with h | h
      · exact Or.inr ⟨r', h, hfd, ht⟩
      · rcases List.mem_singleton.mp h with rfl
        rw [insertRow_feedName] at hfd
        rw [insertRow_title] at ht
        exact Or.inl ⟨hfd.symm, ht.symm⟩
    · rintro (⟨hfd, ht⟩ | ⟨r, hr, hfd, ht⟩)
      · refine ⟨insertRow now feed p, List.mem_append.mpr (Or.inr (List.mem_singleton.mpr rfl)), ?_⟩
        rw [insertRow_feedName, insertRow_title]
        exact ⟨hfd.symm, ht.symm⟩
      · exact ⟨r, List.mem_append.mpr (Or.inl hr), hfd, ht⟩

theorem activeIn_deactivateOp {now : Nat} {feed s : String} {db : List DBRow} {fd t : String} :
    ActiveIn (deactivateOp now feed s db) fd t ↔ (ActiveIn db fd t ∧ ¬(fd = feed ∧ t = s)) := by
  unfold deactivateOp
  constructor
  · rintro ⟨r', hr', hfd, hact, ht⟩
    rcases List.mem_map.mp hr' with ⟨r, hr, rfl⟩
    by_cases hc : keyMatch s feed r = true
    · rw [if_pos hc] at hact
      exact absurd hact (by simp)
    · rw [if_neg hc] at hfd hact ht
      refine ⟨⟨r, hr, hfd, hact, ht⟩, ?_⟩
      rintro ⟨rfl, rfl⟩
      exact hc (keyMatch_iff.mpr ⟨ht, hfd⟩)
  · rintro ⟨⟨r, hr, hfd, hact, ht⟩, hne⟩
    have hc : keyMatch s feed r = false := by
      apply keyMatch_eq_false
      rintro ⟨hts, hfdf⟩
      exact hne ⟨hfd.symm.trans hfdf, ht.symm.trans hts⟩
    refine ⟨_, List.mem_map.mpr ⟨r, hr, rfl⟩, ?_⟩
    rw [if_neg (by rw [hc]; exact Bool.false_ne_true)]
    exact ⟨hfd, hact, ht⟩

theorem presentIn_deactivateOp {now : Nat} {feed s : String} {db : List DBRow} {fd t : String} :
    PresentIn (deactivateOp now feed s db) fd t ↔ PresentIn db fd t := by
  unfold deactivateOp
  constructor
  · rintro ⟨r', hr', hfd, ht⟩
    rcases List.mem_map.mp hr' with ⟨r, hr, rfl⟩
    by_cases hc : keyMatch s feed r = true
    · rw [if_pos hc] at hfd ht
      exact ⟨r, hr, hfd, ht⟩
    · rw [if_neg hc] at hfd ht
      exact ⟨r, hr, hfd, ht⟩
  · rintro ⟨r, hr, hfd, ht⟩
    refine ⟨_, List.mem_map.mpr ⟨r, hr, rfl⟩, ?_⟩
    by_cases hc : keyMatch s feed r = true
    · rw [if_pos hc]
      exact ⟨hfd, ht⟩
    · rw [if_neg hc]
      exact ⟨hfd, ht⟩

theorem applyOps_cons (db : List DBRow) (op : List DBRow → List DBRow)
    (ops : List (List DBRow → List DBRow)) :
    applyOps db (op :: ops) = applyOps (op db) ops := by
  unfold applyOps
  rw [List.foldl_cons]

theorem applyOps_append (db : List DBRow) (l1 l2 : List (List DBRow → List DBRow)) :
    applyOps db (l1 ++ l2) = applyOps (applyOps db l1) l2 := by
  unfold applyOps
  rw [List.foldl_append]

theorem activeIn_applyOps_upserts {now : Nat} {feed : String} (P : List ProcessedItem) :
    ∀ db : List DBRow, ∀ fd t : String,
    ActiveIn (applyOps db (P.map (fun p => upsertOp now feed p))) fd t ↔
      ((fd = feed ∧ t ∈ P.map (fun p => p.title)) ∨ ActiveIn db fd t) := by
  induction P with
  | nil => intro db fd t; simp [applyOps]
  | cons p P ih =>
    intro db fd t
    rw [List.map_cons, applyOps_cons, ih]
    rw [activeIn_upsertOp]
    constructor
    · rintro (⟨rfl, hmem⟩ | (⟨rfl, rfl⟩ | h))
      · exact Or.inl ⟨rfl, List.mem_cons_of_mem _ hmem⟩
      · exact Or.inl ⟨rfl, by simp⟩
      · exact Or.inr h
    · rintro (⟨rfl, hmem⟩ | h)
      · rw [List.map_cons, List.mem_cons] at hmem
        rcases hmem with h1 | h2
        · exact Or.inr (Or.inl ⟨rfl, h1⟩)
        · exact Or.inl ⟨rfl, h2⟩
      · exact Or.inr (Or.inr h)

theorem presentIn_applyOps_upserts {now : Nat} {feed : String} (P : List ProcessedItem) :
    ∀ db : List DBRow, ∀ fd t : String,
    PresentIn (applyOps db (P.map (fun p => upsertOp now feed p))) fd t ↔
      ((fd = feed ∧ t ∈ P.map (fun p => p.title)) ∨ PresentIn db fd t) := by
  induction P with
  | nil => intro db fd t; simp [applyOps]
  | cons p P ih =>
    intro db fd t
    rw [List.map_cons, applyOps_cons, ih]
    rw [presentIn_upsertOp]
    constructor
    · rintro (⟨rfl, hmem⟩ | (⟨rfl, rfl⟩ | h))
      · exact Or.inl ⟨rfl, List.mem_cons_of_mem _ hmem⟩
      · exact Or.inl ⟨rfl, by simp⟩
      · exact Or.inr h
    · rintro (⟨rfl, hmem⟩ | h)
      · rw [List.map_cons, List.mem_cons] at hmem
        rcases hmem with h1 | h2
        · exact Or.inr (Or.inl ⟨rfl, h1⟩)
        · exact Or.inl ⟨rfl, h2⟩
      · exact Or.inr (Or.inr h)

theorem activeIn_applyOps_deacts {now : Nat} {feed : String} (R : List String) :
    ∀ db : List DBRow, ∀ fd t : String,
    ActiveIn (applyOps db (R.map (fun s => deactivateOp now feed s))) fd t ↔
      (ActiveIn db fd t ∧ ¬(fd = feed ∧ t ∈ R)) := by
  induction R with
  | nil => intro db fd t; simp [applyOps]
  | cons s R ih =>
    intro db fd t
    rw [List.map_cons, applyOps_cons, ih]
    rw [activeIn_deactivateOp]
    constructor
    · rintro ⟨⟨h, hne1⟩, hne2⟩
      refine ⟨h, ?_⟩
      rintro ⟨rfl, hmem⟩
      rcases List.mem_cons.mp hmem with rfl | h2
      · exact hne1 ⟨rfl, rfl⟩
      · exact hne2 ⟨rfl, h2⟩
    · rintro ⟨h, hne⟩
      refine ⟨⟨h, ?_⟩, ?_⟩
      · rintro ⟨rfl, rfl⟩
        exact hne ⟨rfl, by simp⟩
      · rintro ⟨rfl, hmem⟩
        exact hne ⟨rfl, List.mem_cons_of_mem _ hmem⟩

theorem presentIn_applyOps_deacts {now : Nat} {feed : String} (R : List String) :
    ∀ db : List DBRow, ∀ fd t : String,
    PresentIn (applyOps db (R.map (fun s => deactivateOp now feed s))) fd t ↔
      PresentIn db fd t := by
  induction R with
  | nil => intro db fd t; simp [applyOps]
  | cons s R ih =>
    intro db fd t
    rw [List.map_cons, applyOps_cons, ih, presentIn_deactivateOp]

theorem filter_map_ite {q cond : DBRow → Bool} {upd : DBRow → DBRow}
    (h : ∀ r, cond r = true → q r = false ∧ q (upd r) = false) :
    ∀ db : List DBRow,
    (db.map (fun r => if cond r then upd r else r)).filter q = db.filter q := by
  intro db
  induction db with
  | nil => rfl
  | cons r rs ih =>
    by_cases hc : cond r = true
    · simp only [List.map_cons, if_pos hc, List.filter_cons, (h r hc).1, (h r hc).2]
      simpa using ih
    · simp only [List.map_cons, if_neg hc, List.filter_cons]
      rw [ih]

theorem filter_upsertOp_other {now : Nat} {feed fd : String} (hne : fd ≠ feed)
    (p : ProcessedItem) (db : List DBRow) :
    (upsertOp now feed p db).filter (fun r => r.feedName == fd)
      = db.filter (fun r => r.feedName == fd) := by
  unfold upsertOp
  by_cases hany : (db.any (keyMatch p.title feed)) = true
  · rw [if_pos hany]
    apply filter_map_ite
    intro r hc
    rcases keyMatch_iff.mp hc with ⟨_, hfeed⟩
    constructor
    · rw [beq_eq_false_iff_ne, hfeed]
      exact fun h => hne h.symm
    · rw [beq_eq_false_iff_ne, updateRow_feedName, hfeed]
      exact fun h => hne h.symm
  · rw [if_neg hany, List.filter_append]
    have hins : ((insertRow now feed p).feedName == fd) = false := by
      rw [beq_eq_false_iff_ne, insertRow_feedName]
      exact fun h => hne h.symm
    simp [hins]

theorem filter_deactivateOp_other {now : Nat} {feed fd : String} (hne : fd ≠ feed)
    (s : String) (db : List DBRow) :
    (deactivateOp now feed s db).filter (fun r => r.feedName == fd)
      = db.filter (fun r => r.feedName == fd) := by
  unfold deactivateOp
  apply filter_map_ite
  intro r hc
  rcases keyMatch_iff.mp hc with ⟨_, hfeed⟩
  constructor
  · rw [beq_eq_false_iff_ne, hfeed]
    exact fun h => hne h.symm
  · show (r.feedName == fd) = false
    rw [beq_eq_false_iff_ne, hfeed]
    exact fun h => hne h.symm

theorem filter_applyOps {q : DBRow → Bool} :
    ∀ ops : List (List DBRow → List DBRow),
    (∀ op ∈ ops, ∀ d : List DBRow, (op d).filter q = d.filter q) →
    ∀ db : List DBRow, (applyOps db ops).filter q = db.filter q := by
  intro ops
  induction ops with
  | nil => intro _ db; rfl
  | cons op rest ih =>
    intro h db
    rw [applyOps_cons]
    rw [ih (fun o ho d => h o (List.mem_cons_of_mem _ ho) d) (op db)]
    exact h op (List.mem_cons_self _ _) db

theorem reconcile_frame {parse : String → Option Int} {now : Nat} {db : List DBRow}
    {items : List RSSItem} {feed fd : String} (hne : fd ≠ feed) :
    ((upsertRSSItems parse now db items feed).db).filter (fun r => r.feedName == fd)
      = db.filter (fun r => r.feedName == fd) := by
  show (applyOps db (reconcileOps parse now db items feed)).filter _ = _
  apply filter_applyOps
  intro op hop d
  unfold reconcileOps at hop
  rcases List.mem_append.mp hop with h | h
  · rcases List.mem_map.mp h with ⟨p, _, rfl⟩
    exact filter_upsertOp_other hne p d
  · rcases List.mem_map.mp h with ⟨s, _, rfl⟩
    exact filter_deactivateOp_other hne s d

theorem not_contains_iff {l : List String} {x : String} :
    (!(l.contains x)) = true ↔ x ∉ l := by
  simp [List.contains]

theorem mem_removedTitles {parse : String → Option Int} {db : List DBRow}
    {items : List RSSItem} {feed t : String} :
    t ∈ removedTitles parse db items feed ↔
      (ActiveIn db feed t ∧ t ∉ processedTitles parse items) := by
  unfold removedTitles
  rw [List.mem_filter, mem_activeTitlesDedup, not_contains_iff]

theorem activeIn_reconcile_self {parse : String → Option Int} {now : Nat} {db : List DBRow}
    {items : List RSSItem} {feed t : String} :
    ActiveIn (upsertRSSItems parse now db items feed).db feed t ↔
      t ∈ processedTitles parse items := by
  show ActiveIn (applyOps db (reconcileOps parse now db items feed)) feed t ↔ _
  unfold reconcileOps
  rw [applyOps_append, activeIn_applyOps_deacts, activeIn_applyOps_upserts]
  have hR : t ∈ removedTitles parse db items feed ↔
      (ActiveIn db feed t ∧ t ∉ processedTitles parse items) := mem_removedTitles
  have hPT : (processedItems parse items).map (fun p => p.title)
      = processedTitles parse items := rfl
  rw [hPT]
  constructor
  · rintro ⟨(⟨_, hmem⟩ | hact), hnot⟩
    · exact hmem
    · by_contra hnp
      exact hnot ⟨rfl, hR.mpr ⟨hact, hnp⟩⟩
  · intro hmem
    refine ⟨Or.inl ⟨rfl, hmem⟩, ?_⟩
    rintro ⟨_, hrem⟩
    exact (hR.mp hrem).2 hmem

theorem activeIn_reconcile_other {parse : String → Option Int} {now : Nat} {db : List DBRow}
    {items : List RSSItem} {feed fd t : String} (hne : fd ≠ feed) :
    ActiveIn (upsertRSSItems parse now db items feed).db fd t ↔ ActiveIn db fd t := by
  show ActiveIn (applyOps db (reconcileOps parse now db items feed)) fd t ↔ _
  unfold reconcileOps
  rw [applyOps_append, activeIn_applyOps_deacts, activeIn_applyOps_upserts]
  constructor
  · rintro ⟨(⟨he, _⟩ | h), _⟩
    · exact absurd he hne
    · exact h
  · intro h
    exact ⟨Or.inr h, fun hx => hne hx.1⟩

theorem presentIn_reconcile {parse : String → Option Int} {now : Nat} {db : List DBRow}
    {items : List RSSItem} {feed fd t : String} :
    PresentIn (upsertRSSItems parse now db items feed).db fd t ↔
      ((fd = feed ∧ t ∈ processedTitles parse items) ∨ PresentIn db fd t) := by
  show PresentIn (applyOps db (reconcileOps parse now db items feed)) fd t ↔ _
  unfold reconcileOps
  rw [applyOps_append, presentIn_applyOps_deacts, presentIn_applyOps_upserts]
  have hPT : (processedItems parse items).map (fun p => p.title)
      = processedTitles parse items := rfl
  rw [hPT]

theorem presentIn_of_activeIn {db : List DBRow} {fd t : String}
    (h : ActiveIn db fd t) : PresentIn db fd t := by
  rcases h with ⟨r, hr, hfd, _, ht⟩
  exact ⟨r, hr, hfd, ht⟩

theorem presentIn_iff_mem_map {db : List DBRow} {fd t : String} :
    PresentIn db fd t ↔ (t, fd) ∈ db.map (fun r => (r.title, r.feedName)) := by
  unfold PresentIn
  rw [List.mem_map]
  constructor
  · rintro ⟨r, hr, hfd, ht⟩
    exact ⟨r, hr, by rw [ht, hfd]⟩
  · rintro ⟨r, hr, heq⟩
    refine ⟨r, hr, ?_, ?_⟩
    · have := congrArg Prod.snd heq
      simpa using this
    · have := congrArg Prod.fst heq
      simpa using this

theorem presentIn_congr_keyFS {db1 db2 : List DBRow}
    (h : db1.map keyFS = db2.map keyFS) {fd t : String} :
    PresentIn db1 fd t ↔ PresentIn db2 fd t := by
  rw [presentIn_iff_mem_map, presentIn_iff_mem_map]
  have h2 : db1.map (fun r => (r.title, r.feedName))
      = db2.map (fun r => (r.title, r.feedName)) := by
    have e1 : (db1.map keyFS).map (fun x => (x.1, x.2.1))
        = db1.map (fun r => (r.title, r.feedName)) := by
      rw [List.map_map]
      rfl
    have e2 : (db2.map keyFS).map (fun x => (x.1, x.2.1))
        = db2.map (fun r => (r.title, r.feedName)) := by
      rw [List.map_map]
      rfl
    rw [← e1, ← e2, h]
  rw [h2]

theorem any_keyMatch_iff {db : List DBRow} {fd t : String} :
    (db.any (keyMatch t fd)) = true ↔ PresentIn db fd t := by
  rw [List.any_eq_true]
  constructor
  · rintro ⟨r, hr, hc⟩
    rcases keyMatch_iff.mp hc with ⟨ht, hfd⟩
    exact ⟨r, hr, hfd, ht⟩
  · rintro ⟨r, hr, hfd, ht⟩
    exact ⟨r, hr, keyMatch_iff.mpr ⟨ht, hfd⟩⟩

theorem map_keyFS_upsertOp {now : Nat} {feed : String} {p : ProcessedItem} {db : List DBRow}
    (hp : PresentIn db feed p.title) :
    (upsertOp now feed p db).map keyFS = db.map keyFS := by
  unfold upsertOp
  rw [if_pos (any_keyMatch_iff.mpr hp), List.map_map]
  apply List.map_congr_left
  intro r _
  by_cases hc : keyMatch p.title feed r = true
  · simp only [Function.comp, if_pos hc]
    rfl
  · simp only [Function.comp, if_neg hc]

theorem map_keyFS_upserts {now : Nat} {feed : String} (P : List ProcessedItem) :
    ∀ db : List DBRow, (∀ p ∈ P, PresentIn db feed p.title) →
    (applyOps db (P.map (fun p => upsertOp now feed p))).map keyFS = db.map keyFS := by
  induction P with
  | nil => intro db _; rfl
  | cons p P ih =>
    intro db hpres
    rw [List.map_cons, applyOps_cons]
    have h1 : (upsertOp now feed p db).map keyFS = db.map keyFS :=
      map_keyFS_upsertOp (hpres p (List.mem_cons_self _ _))
    have h2 : ∀ q ∈ P, PresentIn (upsertOp now feed p db) feed q.title := by
      intro q hq
      exact (presentIn_congr_keyFS h1).mpr (hpres q (List.mem_cons_of_mem _ hq))
    rw [ih (upsertOp now feed p db) h2, h1]

theorem runTx_none (committed : List DBRow) :
    ∀ (ops : List (List DBRow → List DBRow)) (pending : List DBRow),
    runTx committed pending ops none = (applyOps pending ops, true) := by
  intro ops
  induction ops with
  | nil => intro pending; rfl
  | cons op rest ih =>
    intro pending
    rw [applyOps_cons]
    exact ih (op pending)

theorem runTx_fail (committed : List DBRow) :
    ∀ (ops : List (List DBRow → List DBRow)) (pending : List DBRow) (k : Nat),
    k ≤ ops.length → runTx committed pending ops (some k) = (committed, false) := by
  intro ops
  induction ops with
  | nil =>
    intro pending k hk
    have hk0 : k = 0 := Nat.le_zero.mp hk
    subst hk0
    rfl
  | cons op rest ih =>
    intro pending k hk
    cases k with
    | zero => rfl
    | succ k =>
      exact ih (op pending) k (Nat.le_of_succ_le_succ hk)

theorem fetchLoop_throw (fetchPage : Nat → FetchResult) :
    ∀ (n : Nat) (pages : Nat → List RSSItem) (fuel offset : Nat)
      (acc : List RSSItem) (calls : Nat),
    n < fuel →
    (∀ j, j < n → fetchPage (offset + 10 * j) = .items (pages j) ∧ 10 ≤ (pages j).length) →
    fetchPage (offset + 10 * n) = .throwErr →
    offset + 10 * n ≤ 1000 →
    fetchLoop fetchPage fuel offset acc calls
      = (acc ++ ((List.range n).map pages).flatten, calls + n + 1) := by
  intro n
  induction n with
  | zero =>
    intro pages fuel offset acc calls hfuel _ hthrow _
    cases fuel with
    | zero => exact absurd hfuel (by omega)
    | succ fuel =>
      have h0 : fetchPage offset = .throwErr := by simpa using hthrow
      simp [fetchLoop, h0]
  | succ n ih =>
    intro pages fuel offset acc calls hfuel hpages hthrow hbound
    cases fuel with
    | zero => exact absurd hfuel (by omega)
    | succ fuel =>
      have h0 := hpages 0 (Nat.succ_pos n)
      have h0fetch : fetchPage offset = .items (pages 0) := by simpa using h0.1
      have hlen : ¬((pages 0).length == 0) = true := by
        rw [beq_iff_eq]
        omega
      have hlt : ¬((pages 0).length < 10) := by omega
      have hceil : ¬(offset + 10 > 1000) := by omega
      rw [fetchLoop, h0fetch]
      simp only [hlen, hlt, hceil, if_false, if_neg hlen, if_neg hlt, if_neg hceil]
      rw [ih (fun j => pages (j + 1)) fuel (offset + 10) (acc ++ pages 0) (calls + 1)
        (by omega)
        (by
          intro j hj
          have := hpages (j + 1) (by omega)
          constructor
          · have harith : offset + 10 * (j + 1) = offset + 10 + 10 * j := by ring
            rw [harith] at this
            exact this.1
          · exact this.2)
        (by
          have harith : offset + 10 * (n + 1) = offset + 10 + 10 * n := by ring
          rw [harith] at hthrow
          exact hthrow)
        (by omega)]
      rw [if_neg (by simp : ¬(false = true))]
      have hr : ((List.range (n + 1)).map pages).flatten
          = pages 0 ++ ((List.range n).map (fun j => pages (j + 1))).flatten := by
        rw [List.range_succ_eq_map, List.map_cons, List.flatten_cons, List.map_map]
        rfl
      rw [hr, Prod.mk.injEq]
      constructor
      · rw [List.append_assoc]
      · omega

/-! ### Claim theorems for the date extractor -/

/-- C9: Occurrence ordering — for every item with at least two valid
event-date attributes (so the extracted list has at least two entries), the
list returned by getEventDates is non-decreasing by start date-time,
regardless of the order the attributes appeared in the metadata. -/
theorem C9_occurrence_ordering (parse : String → Option Int) (item : RSSItem)
    (h : 2 ≤ (getEventDates parse item).length) :
    (getEventDates parse item).Pairwise (fun a b => a.time ≤ b.time) := by
  unfold getEventDates
  split
  · simp
  · split
    · simp
    · exact pairwise_sortOccs _

/-- Concrete parse table for the C9 witness: two date attributes whose
parsed start times are out of order relative to attribute order. -/
def parseW9 : String → Option Int := fun s =>
  if s == "2024-03-05" then some 200
  else if s == "2024-01-02" then some 100
  else none

/-- Concrete item for the C9 witness: two valid date attributes, later date
first. -/
def itemW9 : RSSItem :=
  { title := ["Story Time"]
    link := ["https://tpl/1"]
    description := []
    contentEncoded := []
    record := [⟨some [⟨"p_event_date", "2024-03-05"⟩, ⟨"p_event_date", "2024-01-02"⟩]⟩] }

theorem C9_occurrence_ordering_witness :
    2 ≤ (getEventDates parseW9 itemW9).length ∧
      (getEventDates parseW9 itemW9).Pairwise (fun a b => a.time ≤ b.time) :=
  ⟨by decide, C9_occurrence_ordering parseW9 itemW9 (by decide)⟩

/-- C8: Partial-date tolerance — an item whose metadata holds exactly two
event-date attributes, one of which fails to parse and one of which
succeeds, yields the one-element occurrence list consisting of the valid
occurrence (whichever position the malformed one is in); and an item with no
surviving occurrence (no date attributes, all parses failed, or no metadata
block at all) yields the empty list, never an error. -/
theorem C8_partial_date_tolerance :
    (∀ (parse : String → Option Int) (item : RSSItem) (record0 : RecordData)
      (attrList : List AttrEntry) (d0 d1 : String),
      item.record.head? = some record0 →
      record0.attrs = some attrList →
      bucketDates attrList = [d0, d1] →
      ((∀ occ : EventDate,
        buildOccurrence parse (bucketStart attrList) (bucketEnd attrList) 0 d0 = some occ →
        buildOccurrence parse (bucketStart attrList) (bucketEnd attrList) 1 d1 = none →
        getEventDates parse item = [occ]) ∧
       (∀ occ : EventDate,
        buildOccurrence parse (bucketStart attrList) (bucketEnd attrList) 0 d0 = none →
        buildOccurrence parse (bucketStart attrList) (bucketEnd attrList) 1 d1 = some occ →
        getEventDates parse item = [occ]))) ∧
    (∀ (parse : String → Option Int) (item : RSSItem) (record0 : RecordData)
      (attrList : List AttrEntry),
      item.record.head? = some record0 →
      record0.attrs = some attrList →
      rawOccurrences parse attrList = [] →
      getEventDates parse item = []) ∧
    (∀ (parse : String → Option Int) (item : RSSItem),
      item.record.head? = none →
      getEventDates parse item = []) := by
  refine ⟨?_, ?_, ?_⟩
  · intro parse item record0 attrList d0 d1 hrec hattrs hdates
    have hged : getEventDates parse item = sortOccs (rawOccurrences parse attrList) := by
      unfold getEventDates
      rw [hrec]
      simp only [hattrs]
    constructor
    · intro occ hb0 hb1
      have hraw : rawOccurrences parse attrList = [occ] := by
        unfold rawOccurrences
        rw [hdates, rawOccurrencesAux, hb0, rawOccurrencesAux, hb1, rawOccurrencesAux]
      rw [hged, hraw]
      rfl
    · intro occ hb0 hb1
      have hraw : rawOccurrences parse attrList = [occ] := by
        unfold rawOccurrences
        rw [hdates, rawOccurrencesAux, hb0, rawOccurrencesAux, hb1, rawOccurrencesAux]
      rw [hged, hraw]
      rfl
  · intro parse item record0 attrList hrec hattrs hraw
    unfold getEventDates
    rw [hrec]
    simp only [hattrs, hraw]
    rfl
  · intro parse item hrec
    unfold getEventDates
    rw [hrec]

/-- Attribute list for the C8 witness: a valid date followed by a malformed
one. -/
def attrsW8 : List AttrEntry := [⟨"p_event_date", "2024-01-02"⟩, ⟨"p_event_date", "junk"⟩]

/-- Concrete parse table for the C8 witness. -/
def parseW8 : String → Option Int := fun s => if s == "2024-01-02" then some 100 else none

/-- Item with one valid and one malformed date attribute. -/
def itemW8 : RSSItem := ⟨["T"], ["L"], [], [], [⟨some attrsW8⟩]⟩

/-- Item whose only date attribute is malformed. -/
def itemW8b : RSSItem := ⟨["T"], ["L"], [], [], [⟨some [⟨"p_event_date", "junk"⟩]⟩]⟩

theorem C8_partial_date_tolerance_witness :
    getEventDates parseW8 itemW8 = [⟨100, none⟩] ∧ getEventDates parseW8 itemW8b = [] := by
  constructor
  · exact (C8_partial_date_tolerance.1 parseW8 itemW8 ⟨some attrsW8⟩ attrsW8
      "2024-01-02" "junk" rfl rfl rfl).1 ⟨100, none⟩ (by decide) (by decide)
  · exact C8_partial_date_tolerance.2.1 parseW8 itemW8b ⟨some [⟨"p_event_date", "junk"⟩]⟩
      [⟨"p_event_date", "junk"⟩] rfl rfl (by decide)

/-! ### Claim theorems for the paginator -/

/-- An RSS item with every field empty, used to populate the mock pages. -/
def blankItem : RSSItem := ⟨[], [], [], [], []⟩

/-- A fetcher serving pages of sizes 10, 10 and 7 at offsets 0, 10 and 20. -/
def pagesPager : Nat → FetchResult := fun off =>
  if off == 0 then .items (List.replicate 10 blankItem)
  else if off == 10 then .items (List.replicate 10 blankItem)
  else if off == 20 then .items (List.replicate 7 blankItem)
  else .items []

/-- A fetcher that always serves a full page of 10 items. -/
def fullPager : Nat → FetchResult := fun _ => .items (List.replicate 10 blankItem)

set_option maxRecDepth 10000 in
/-- C6: Pagination termination and accumulation — against a fetcher serving
pages of sizes 10, 10 and 7 the paginator accumulates exactly 27 items in
exactly 3 fetch calls (the short page is taken and pagination stops); and
against a fetcher that always serves full pages of 10 it stops at the safety
ceiling, the last page fetched being the one at offset 1000 (101 calls at
offsets 0, 10, ..., 1000, all 1010 items kept). -/
theorem C6_pagination_termination :
    ((fetchAllRSSItems pagesPager).1.length = 27 ∧ (fetchAllRSSItems pagesPager).2 = 3) ∧
      ((fetchAllRSSItems fullPager).2 = 101 ∧ (fetchAllRSSItems fullPager).1.length = 1010) :=
  ⟨⟨rfl, rfl⟩, rfl, rfl⟩

/-- C7: Pagination partial-failure tolerance — whenever the fetch or parse
at the page reached after n full pages throws, the paginator returns exactly
the items accumulated from the n previously successful pages (and has made
n + 1 fetch calls) instead of propagating the failure; with n = 0 a failure
on the very first page yields the empty list rather than an error. -/
theorem C7_pagination_partial_failure (fetchPage : Nat → FetchResult) (n : Nat)
    (pages : Nat → List RSSItem)
    (hpages : ∀ j, j < n → fetchPage (10 * j) = .items (pages j) ∧ 10 ≤ (pages j).length)
    (hthrow : fetchPage (10 * n) = .throwErr)
    (hbound : 10 * n ≤ 1000) :
    fetchAllRSSItems fetchPage = (((List.range n).map pages).flatten, n + 1) := by
  unfold fetchAllRSSItems
  have h := fetchLoop_throw fetchPage n pages 102 0 [] 0 (by omega)
    (by intro j hj; simpa using hpages j hj)
    (by simpa using hthrow) (by omega)
  simpa using h

/-- A fetcher serving one full page and then throwing. -/
def throwPager : Nat → FetchResult := fun off =>
  if off == 0 then .items (List.replicate 10 blankItem) else .throwErr

theorem C7_pagination_partial_failure_witness :
    fetchAllRSSItems throwPager = (List.replicate 10 blankItem, 2) ∧
      fetchAllRSSItems (fun _ => FetchResult.throwErr) = ([], 1) := by
  constructor
  · have h := C7_pagination_partial_failure throwPager 1
      (fun _ => List.replicate 10 blankItem)
      (by
        intro j hj
        have hj0 : j = 0 := by omega
        subst hj0
        exact ⟨by decide, by decide⟩)
      (by decide) (by omega)
    simpa using h
  · have h := C7_pagination_partial_failure (fun _ => FetchResult.throwErr) 0
      (fun _ => [])
      (by intro j hj; omega)
      rfl (by omega)
    simpa using h

/-! ### Claim theorems for the reconciler -/

/-- C5: Reconciliation atomicity — the reconcile for one feed runs as a
single transaction: a database failure injected before any of its statements
(or at the commit, k = ops.length) leaves the committed state exactly as it
was and surfaces failure (the false flag consumed by the orchestrator's
per-feed catch), while the failure-free run commits exactly the
upsertRSSItems result. -/
theorem C5_reconcile_atomicity (parse : String → Option Int) (now : Nat) (db : List DBRow)
    (items : List RSSItem) (feed : String) (k : Nat)
    (hk : k ≤ (reconcileOps parse now db items feed).length) :
    runTx db db (reconcileOps parse now db items feed) (some k) = (db, false) ∧
      runTx db db (reconcileOps parse now db items feed) none
        = ((upsertRSSItems parse now db items feed).db, true) :=
  ⟨runTx_fail db _ db k hk, runTx_none db _ db⟩

/-- A stored row used by the reconciler witnesses: active title "Old" of
feed "F". -/
def rowOldF : DBRow :=
  { title := "Old", link := "l0", description := none, contentEncoded := none
    recordData := none, eventDates := [], feedName := "F"
    firstSeen := 1, lastSeen := 1, isActive := true, createdAt := 1, updatedAt := 1 }

/-- A fetched item used by the reconciler witnesses: title "New", feed
pass for feed "F". -/
def itemNewF : RSSItem := ⟨["New"], ["l1"], [], [], []⟩

/-- The trivial date parser used where the witness items carry no dates. -/
def parseNone : String → Option Int := fun _ => none

/-- The no-database-failure injection used by the orchestrator witnesses. -/
def noFail : String → Option Nat := fun _ => none

theorem C5_reconcile_atomicity_witness :
    runTx [rowOldF] [rowOldF] (reconcileOps parseNone 2 [rowOldF] [itemNewF] "F") (some 1)
        = ([rowOldF], false) ∧
      runTx [rowOldF] [rowOldF] (reconcileOps parseNone 2 [rowOldF] [itemNewF] "F") none
        = ((upsertRSSItems parseNone 2 [rowOldF] [itemNewF] "F").db, true) :=
  C5_reconcile_atomicity parseNone 2 [rowOldF] [itemNewF] "F" 1 (by decide)

/-- C4: Key isolation — reconciling feed A leaves the rows of every other
feed B untouched in every column and in their stored order: the sublist of
rows with feed_name = B is unchanged by the whole reconciliation (every read
and write of upsertRSSItems is filtered by the feed name). -/
theorem C4_key_isolation (parse : String → Option Int) (now : Nat) (db : List DBRow)
    (items : List RSSItem) (feedA feedB : String) (hne : feedA ≠ feedB) :
    ((upsertRSSItems parse now db items feedA).db).filter (fun r => r.feedName == feedB)
      = db.filter (fun r => r.feedName == feedB) :=
  reconcile_frame (fun h => hne h.symm)

/-- A stored row of the unrelated feed "B". -/
def rowKeepB : DBRow :=
  { title := "Old", link := "lb", description := none, contentEncoded := none
    recordData := none, eventDates := [], feedName := "B"
    firstSeen := 1, lastSeen := 1, isActive := true, createdAt := 1, updatedAt := 1 }

theorem C4_key_isolation_witness :
    ((upsertRSSItems parseNone 2 [rowOldF, rowKeepB] [itemNewF] "F").db).filter
        (fun r => r.feedName == "B")
      = [rowOldF, rowKeepB].filter (fun r => r.feedName == "B") :=
  C4_key_isolation parseNone 2 [rowOldF, rowKeepB] [itemNewF] "F" "B" (by decide)

/-- C2: Active-set invariant — after upsertRSSItems commits for feed f, the
titles active under feed f are exactly the titles of the items of the pass
that carry both a title and a link (items lacking either are skipped); and
every previously active row of feed f whose title is absent from the
processed set is still stored, flagged inactive rather than deleted. -/
theorem C2_active_set_invariant (parse : String → Option Int) (now : Nat) (db : List DBRow)
    (items : List RSSItem) (feed : String) :
    (∀ t : String,
      ActiveIn (upsertRSSItems parse now db items feed).db feed t ↔
        t ∈ processedTitles parse items) ∧
    (∀ r ∈ db, r.isActive = true → r.feedName = feed →
      r.title ∉ processedTitles parse items →
      ∃ r' ∈ (upsertRSSItems parse now db items feed).db,
        r'.title = r.title ∧ r'.feedName = feed ∧ r'.isActive = false) := by
  constructor
  · intro t
    exact activeIn_reconcile_self
  · intro r hr hact hfeed hnp
    have hpres : PresentIn (upsertRSSItems parse now db items feed).db feed r.title :=
      presentIn_reconcile.mpr (Or.inr ⟨r, hr, hfeed, rfl⟩)
    rcases hpres with ⟨r', hr', hfd', ht'⟩
    refine ⟨r', hr', ht', hfd', ?_⟩
    by_contra hact'
    have hact'' : r'.isActive = true := by
      rcases Bool.eq_false_or_eq_true r'.isActive with h | h
      · exact h
      · exact absurd h hact'
    have : ActiveIn (upsertRSSItems parse now db items feed).db feed r.title :=
      ⟨r', hr', hfd', hact'', ht'⟩
    exact hnp (activeIn_reconcile_self.mp this)

theorem C2_active_set_invariant_witness :
    ActiveIn (upsertRSSItems parseNone 2 [rowOldF] [itemNewF] "F").db "F" "New" ∧
      ∃ r' ∈ (upsertRSSItems parseNone 2 [rowOldF] [itemNewF] "F").db,
        r'.title = "Old" ∧ r'.feedName = "F" ∧ r'.isActive = false := by
  have h := C2_active_set_invariant parseNone 2 [rowOldF] [itemNewF] "F"
  constructor
  · exact (h.1 "New").mpr (by decide)
  · have h2 := h.2 rowOldF (by decide) rfl rfl (by decide)
    exact h2

/-- C3: Idempotence of reconciliation — running upsertRSSItems twice in a
row with the identical item set (at any two timestamps) returns empty
newItems and empty removedItems on the second call, and the second call
changes no row's title, feed_name or first_seen (in particular no first_seen
value changes, and no row is created or dropped). -/
theorem C3_reconcile_idempotence (parse : String → Option Int) (now1 now2 : Nat)
    (db : List DBRow) (items : List RSSItem) (feed : String) :
    (upsertRSSItems parse now2 (upsertRSSItems parse now1 db items feed).db items feed).newItems
        = [] ∧
    (upsertRSSItems parse now2
        (upsertRSSItems parse now1 db items feed).db items feed).removedItems = [] ∧
    ((upsertRSSItems parse now2
        (upsertRSSItems parse now1 db items feed).db items feed).db).map keyFS
      = ((upsertRSSItems parse now1 db items feed).db).map keyFS := by
  have hactive : ∀ t : String,
      ActiveIn (upsertRSSItems parse now1 db items feed).db feed t ↔
        t ∈ processedTitles parse items := fun t => activeIn_reconcile_self
  have hnew : newTitles parse (upsertRSSItems parse now1 db items feed).db items feed = [] := by
    unfold newTitles
    rw [List.map_eq_nil]
    rw [List.filter_eq_nil]
    intro p hp
    rw [Bool.not_eq_true, Bool.not_eq_false']
    rw [contains_iff_mem, mem_activeTitlesDedup]
    exact (hactive p.title).mpr (List.mem_map.mpr ⟨p, hp, rfl⟩)
  have hrem : removedTitles parse (upsertRSSItems parse now1 db items feed).db items feed
      = [] := by
    unfold removedTitles
    rw [List.filter_eq_nil]
    intro t ht
    rw [Bool.not_eq_true, Bool.not_eq_false', contains_iff_mem]
    exact (hactive t).mp (mem_activeTitlesDedup.mp ht)
  refine ⟨hnew, hrem, ?_⟩
  show (applyOps (upsertRSSItems parse now1 db items feed).db
      (reconcileOps parse now2 (upsertRSSItems parse now1 db items feed).db items feed)).map keyFS
    = _
  unfold reconcileOps
  rw [hrem]
  rw [List.map_nil, List.append_nil]
  apply map_keyFS_upserts
  intro p hp
  exact presentIn_of_activeIn
    ((hactive p.title).mpr (List.mem_map.mpr ⟨p, hp, rfl⟩))

/-! ### Helper lemmas about the orchestrator -/

theorem runTx_cases (committed : List DBRow) :
    ∀ (ops : List (List DBRow → List DBRow)) (pending : List DBRow) (failAt : Option Nat),
    runTx committed pending ops failAt = (applyOps pending ops, true) ∨
      runTx committed pending ops failAt = (committed, false) := by
  intro ops
  induction ops with
  | nil =>
    intro pending failAt
    cases failAt with
    | none => exact Or.inl rfl
    | some k =>
      cases k with
      | zero => exact Or.inr rfl
      | succ k => exact Or.inl rfl
  | cons op rest ih =>
    intro pending failAt
    cases failAt with
    | none =>
      rw [applyOps_cons]
      exact ih (op pending) none
    | some k =>
      cases k with
      | zero => exact Or.inr rfl
      | succ k =>
        rw [applyOps_cons]
        exact ih (op pending) (some k)

theorem filter_pruneOldData (cutoff : Nat) (q : DBRow → Bool)
    (hq : ∀ r, q r = true → r.isActive = true) (db : List DBRow) :
    (pruneOldData cutoff db).filter q = db.filter q := by
  unfold pruneOldData
  rw [List.filter_filter]
  apply List.filter_congr
  intro r _
  by_cases hqr : q r = true
  · rw [hqr, hq r hqr]
    rfl
  · rw [Bool.not_eq_true] at hqr
    rw [hqr]
    rfl

theorem foldl_processFeed_frame (parse : String → Option Int) (now : Nat)
    (fetcher : String → Nat → FetchResult) (dbFail : String → Option Nat) (fname : String) :
    ∀ (fs : List FeedConfig) (st : RunState),
    (∀ g ∈ fs, g.name = fname → (fetchAllRSSItems (fetcher g.url)).1 = []) →
    ((fs.foldl (processFeed parse now fetcher dbFail) st).db).filter
        (fun r => r.feedName == fname)
      = (st.db).filter (fun r => r.feedName == fname) := by
  intro fs
  induction fs with
  | nil => intro st _; rfl
  | cons g gs ih =>
    intro st hg
    rw [List.foldl_cons]
    rw [ih (processFeed parse now fetcher dbFail st g)
        (fun g' hg' hn => hg g' (List.mem_cons_of_mem _ hg') hn)]
    unfold processFeed
    by_cases hlen : ((fetchAllRSSItems (fetcher g.url)).1).length > 0
    · rw [if_pos hlen]
      by_cases hname : g.name = fname
      · exfalso
        have hempty := hg g (List.mem_cons_self _ _) hname
        rw [hempty] at hlen
        exact absurd hlen (by simp)
      · have hne : fname ≠ g.name := fun h => hname h.symm
        rcases runTx_cases st.db
            (reconcileOps parse now st.db (fetchAllRSSItems (fetcher g.url)).1 g.name)
            st.db (dbFail g.name) with htx | htx
        · rw [if_pos (by rw [htx])]
          show ((runTx st.db st.db _ (dbFail g.name)).1).filter _ = _
          rw [htx]
          exact reconcile_frame hne
        · rw [if_neg (by rw [htx]; exact Bool.false_ne_true)]
          show ((runTx st.db st.db _ (dbFail g.name)).1).filter _ = _
          rw [htx]
    · rw [if_neg hlen]

theorem dedupList_eq_nil {l : List String} : dedupList l = [] ↔ l = [] := by
  constructor
  · intro h
    cases l with
    | nil => rfl
    | cons x xs =>
      exfalso
      have : x ∈ dedupList (x :: xs) := mem_dedupList.mpr (List.mem_cons_self _ _)
      rw [h] at this
      exact absurd this (List.not_mem_nil x)
  · intro h
    rw [h]
    rfl

theorem newTitles_empty_db (parse : String → Option Int) (items : List RSSItem)
    (feed : String) : newTitles parse [] items feed = processedTitles parse items := by
  unfold newTitles processedTitles
  congr 1
  apply List.filter_eq_self.mpr
  intro p _
  rfl

theorem removedTitles_empty_db (parse : String → Option Int) (items : List RSSItem)
    (feed : String) : removedTitles parse [] items feed = [] := rfl

/-! ### Claim theorems for the orchestrator -/

/-- C10: Empty-fetch guard — when pagination yields zero items for a feed
(including every page fetch failing), the orchestrator skips reconciliation
for that feed: every previously active row of that feed survives the run
unchanged (no deactivation), and in the single-feed case nothing is
reconciled at all, so the state is exactly the pruned input and no removed
title is reported. The hypothesis covers any enabled feed sharing the same
feed name, since rows are keyed by name. -/
theorem C10_empty_fetch_guard (parse : String → Option Int) (now cutoff : Nat)
    (db : List DBRow) (feeds : List FeedConfig) (fetcher : String → Nat → FetchResult)
    (dbFail : String → Option Nat) (f : FeedConfig)
    (hmem : f ∈ feeds) (hen : f.enabled = true)
    (hempty : ∀ g ∈ feeds, g.enabled = true → g.name = f.name →
      (fetchAllRSSItems (fetcher g.url)).1 = []) :
    ((run parse now cutoff db feeds fetcher dbFail).1.db).filter
        (fun r => r.feedName == f.name && r.isActive)
      = db.filter (fun r => r.feedName == f.name && r.isActive) ∧
    (feeds.filter (fun g => g.enabled) = [f] →
      (run parse now cutoff db feeds fetcher dbFail).1.allRemoved = [] ∧
      (run parse now cutoff db feeds fetcher dbFail).1.db = pruneOldData cutoff db) := by
  have e : ∀ d : List DBRow,
      d.filter (fun r => r.feedName == f.name && r.isActive)
        = (d.filter (fun r => r.feedName == f.name)).filter (fun r => r.isActive) := by
    intro d
    rw [List.filter_filter]
    apply List.filter_congr
    intro r _
    exact Bool.and_comm _ _
  constructor
  · have hloop := foldl_processFeed_frame parse now fetcher dbFail f.name
      (feeds.filter (fun g => g.enabled)) ⟨pruneOldData cutoff db, [], [], []⟩
      (by
        intro g hg hn
        rcases List.mem_filter.mp hg with ⟨hgmem, hgen⟩
        exact hempty g hgmem hgen hn)
    show ((runState parse now cutoff db feeds fetcher dbFail).db).filter _ = _
    rw [e ((runState parse now cutoff db feeds fetcher dbFail).db), e db]
    have hstate : (runState parse now cutoff db feeds fetcher dbFail).db
        = ((feeds.filter (fun g => g.enabled)).foldl (processFeed parse now fetcher dbFail)
            ⟨pruneOldData cutoff db, [], [], []⟩).db := rfl
    rw [hstate, hloop]
    show ((pruneOldData cutoff db).filter _).filter _ = _
    rw [← e (pruneOldData cutoff db), ← e db]
    apply filter_pruneOldData
    intro r hr
    rw [Bool.and_eq_true] at hr
    exact hr.2
  · intro hfil
    have hstep : runState parse now cutoff db feeds fetcher dbFail
        = ⟨pruneOldData cutoff db, [], [], []⟩ := by
      unfold runState
      rw [hfil, List.foldl_cons, List.foldl_nil]
      unfold processFeed
      rw [if_neg (by rw [hempty f hmem hen rfl]; simp)]
    exact ⟨by show (runState parse now cutoff db feeds fetcher dbFail).allRemoved = []
              rw [hstep],
           by show (runState parse now cutoff db feeds fetcher dbFail).db = _
              rw [hstep]⟩

theorem C10_empty_fetch_guard_witness :
    ((run parseNone 5 0 [rowOldF] [⟨"F", "u", true⟩] (fun _ _ => FetchResult.items [])
        noFail).1.db).filter (fun r => r.feedName == "F" && r.isActive)
      = [rowOldF].filter (fun r => r.feedName == "F" && r.isActive) ∧
    ((run parseNone 5 0 [rowOldF] [⟨"F", "u", true⟩] (fun _ _ => FetchResult.items [])
        noFail).1.allRemoved = [] ∧
      (run parseNone 5 0 [rowOldF] [⟨"F", "u", true⟩] (fun _ _ => FetchResult.items [])
        noFail).1.db = pruneOldData 0 [rowOldF]) := by
  have h := C10_empty_fetch_guard parseNone 5 0 [rowOldF] [⟨"F", "u", true⟩]
    (fun _ _ => FetchResult.items []) noFail ⟨"F", "u", true⟩ (List.mem_cons_self _ _) rfl
    (fun g _ _ _ => rfl)
  exact ⟨h.1, h.2 rfl⟩

/-- The five-item feed page of the C1 scenario. -/
def itemsW5 : List RSSItem :=
  [⟨["E1"], ["l1"], [], [], []⟩, ⟨["E2"], ["l2"], [], [], []⟩, ⟨["E3"], ["l3"], [], [], []⟩,
    ⟨["E4"], ["l4"], [], [], []⟩, ⟨["E5"], ["l5"], [], [], []⟩]

/-- A fetcher serving the five items on the first page and nothing after. -/
def fetcherW5 : String → Nat → FetchResult := fun _ off =>
  if off == 0 then .items itemsW5 else .items []

/-- The single enabled feed of the C1 scenario. -/
def feedCfgF : FeedConfig := ⟨"F", "u", true⟩

/-- C1 counterexample: with an empty baseline and one feed returning 5
items, the orchestrator does invoke the notifier exactly once, but that
single notification carries a change summary (the new-items section of
formatContent), because the allNewEvents-nonempty branch at src/index.ts
line 982 fires before the first-run branch at line 986 — contradicting the
claim that the first-run notification carries no change-summary framing. -/
theorem C1_first_run_counterexample :
    (run parseNone 3 0 [] [feedCfgF] fetcherW5 noFail).2
      = [⟨itemsW5.map (fun i => ⟨i, "F"⟩), ["E1", "E2", "E3", "E4", "E5"], []⟩] ∧
      hasChangeSummary
        ⟨itemsW5.map (fun i => ⟨i, "F"⟩), ["E1", "E2", "E3", "E4", "E5"], []⟩ = true :=
  ⟨rfl, rfl⟩

theorem fetchLoop_short_page (fetchPage : Nat → FetchResult) (l : List RSSItem)
    (fuel offset : Nat) (acc : List RSSItem) (calls : Nat)
    (hpage : fetchPage offset = .items l) (hne : l.length ≠ 0) (hshort : l.length < 10) :
    fetchLoop fetchPage (fuel + 1) offset acc calls = (acc ++ l, calls + 1) := by
  rw [fetchLoop, hpage]
  show (if (l.length == 0) = true then (acc, calls + 1)
    else if l.length < 10 then (acc ++ l, calls + 1)
    else if offset + 10 > 1000 then (acc ++ l, calls + 1)
    else fetchLoop fetchPage fuel (offset + 10) (acc ++ l) (calls + 1)) = (acc ++ l, calls + 1)
  rw [if_neg (by simpa using hne), if_pos hshort]

theorem fetchAllRSSItems_single_short_page (fetchPage : Nat → FetchResult)
    (l : List RSSItem) (hpage : fetchPage 0 = .items l) (hne : l.length ≠ 0)
    (hshort : l.length < 10) :
    fetchAllRSSItems fetchPage = (l, 1) := by
  show fetchLoop fetchPage (101 + 1) 0 [] 0 = _
  rw [fetchLoop_short_page fetchPage l 101 0 [] 0 hpage hne hshort]
  rw [List.nil_append]

/-- C1 amended: on a first run (empty stored baseline) of a single enabled
feed whose pagination yields a non-empty item list all of whose items carry
title and link, every fetched title is classified new and the orchestrator
invokes the notifier exactly once — but through the changes branch, so the
single notification carries the full item list together with the new-items
change summary; the no-change-summary first-run notification fires only when
the new and removed sets are both empty. -/
theorem C1_first_run_notification (parse : String → Option Int) (now cutoff : Nat)
    (nm url : String) (fetcher : String → Nat → FetchResult) (items : List RSSItem)
    (hfetch : (fetchAllRSSItems (fetcher url)).1 = items)
    (hne : items ≠ [])
    (hproc : ∀ i ∈ items, (processItem parse i).isSome = true) :
    (run parse now cutoff [] [⟨nm, url, true⟩] fetcher (fun _ => none)).2
      = [⟨items.map (fun i => ⟨i, nm⟩), dedupList (processedTitles parse items), []⟩] ∧
      hasChangeSummary ⟨items.map (fun i => ⟨i, nm⟩),
        dedupList (processedTitles parse items), []⟩ = true := by
  have hplen : processedTitles parse items ≠ [] := by
    cases items with
    | nil => exact absurd rfl hne
    | cons i rest =>
      have hi := hproc i (List.mem_cons_self _ _)
      rcases Option.isSome_iff_exists.mp hi with ⟨p, hp⟩
      unfold processedTitles processedItems
      simp [List.filterMap_cons, hp]
  have hded : dedupList (processedTitles parse items) ≠ [] :=
    fun h => hplen (dedupList_eq_nil.mp h)
  have hdedempty : (dedupList (processedTitles parse items)).isEmpty = false := by
    rcases Bool.eq_false_or_eq_true (dedupList (processedTitles parse items)).isEmpty
      with h | h
    · exact absurd (List.isEmpty_iff.mp h) hded
    · exact h
  have hstate : runState parse now cutoff [] [⟨nm, url, true⟩] fetcher (fun _ => none)
      = ⟨(upsertRSSItems parse now [] items nm).db,
          dedupList (processedTitles parse items), [],
          items.map (fun i => ⟨i, nm⟩)⟩ := by
    unfold runState
    rw [show ([⟨nm, url, true⟩] : List FeedConfig).filter (fun f => f.enabled)
        = [⟨nm, url, true⟩] from rfl]
    rw [List.foldl_cons, List.foldl_nil]
    unfold processFeed
    have hurl : (⟨nm, url, true⟩ : FeedConfig).url = url := rfl
    have hnm : (⟨nm, url, true⟩ : FeedConfig).name = nm := rfl
    rw [hurl, hnm, hfetch]
    have hprune : pruneOldData cutoff ([] : List DBRow) = [] := rfl
    have hdb : (⟨pruneOldData cutoff [], [], [], []⟩ : RunState).db = [] := rfl
    rw [hdb]
    rw [if_pos (List.length_pos.mpr hne)]
    rw [runTx_none [] (reconcileOps parse now [] items nm) []]
    rw [if_pos rfl]
    have hnew : newTitles parse [] items nm = processedTitles parse items :=
      newTitles_empty_db parse items nm
    have hrem : removedTitles parse [] items nm = [] :=
      removedTitles_empty_db parse items nm
    rw [hnew, hrem]
    rfl
  constructor
  · show runEmails (runState parse now cutoff [] [⟨nm, url, true⟩] fetcher (fun _ => none)) = _
    rw [hstate]
    unfold runEmails
    rw [if_pos (by rw [show (⟨(upsertRSSItems parse now [] items nm).db,
        dedupList (processedTitles parse items), [],
        items.map (fun i => ⟨i, nm⟩)⟩ : RunState).allNew
        = dedupList (processedTitles parse items) from rfl, hdedempty]; rfl)]
  · unfold hasChangeSummary
    rw [show (⟨items.map (fun i => ⟨i, nm⟩), dedupList (processedTitles parse items),
        []⟩ : EmailMsg).newEvents = dedupList (processedTitles parse items) from rfl]
    rw [hdedempty]
    rfl

theorem C1_first_run_notification_witness :
    (run parseNone 3 0 [] [⟨"F", "u", true⟩] fetcherW5 (fun _ => none)).2
      = [⟨itemsW5.map (fun i => ⟨i, "F"⟩),
          dedupList (processedTitles parseNone itemsW5), []⟩] ∧
      hasChangeSummary ⟨itemsW5.map (fun i => ⟨i, "F"⟩),
        dedupList (processedTitles parseNone itemsW5), []⟩ = true :=
  C1_first_run_notification parseNone 3 0 "F" "u" fetcherW5 itemsW5 rfl (by decide) (by decide)
